import Mathlib

/-!
Verification of the BXO request-dispatch engine (src/index.ts) against its
natural-language specification.  JavaScript strings are modelled as `List Char`
(with `String` wrappers at the interfaces), JavaScript dynamic values as the
inductive type `JVal`, and the external validation library (zod) by its
contract: a validator is a function that either returns a value or fails with a
structured issue list.  File-handle response values are outside the modelled
value domain (no claim concerns them).
-/

namespace Bxo

/-! ### Percent encoding and decoding (ECMAScript encodeURIComponent / decodeURIComponent) -/

/-- Numeric value of a hexadecimal digit character (case-insensitive), as read by
the ECMAScript URI decoding algorithm. -/
def hexVal (c : Char) : Option Nat :=
  if 48 ≤ c.toNat ∧ c.toNat ≤ 57 then some (c.toNat - 48)
  else if 65 ≤ c.toNat ∧ c.toNat ≤ 70 then some (c.toNat - 55)
  else if 97 ≤ c.toNat ∧ c.toNat ≤ 102 then some (c.toNat - 87)
  else none

/-- Uppercase hexadecimal digits, as produced by encodeURIComponent escapes. -/
def hexDigits : List Char := "0123456789ABCDEF".toList

/-- Uppercase hexadecimal digit for a value below 16. -/
def hexDigitU (n : Nat) : Char := hexDigits.getD n '0'

/-- UTF-8 byte sequence of a Unicode scalar value. -/
def utf8Bytes (c : Char) : List Nat :=
  if c.toNat < 128 then [c.toNat]
  else if c.toNat < 2048 then [192 + c.toNat / 64, 128 + c.toNat % 64]
  else if c.toNat < 65536 then
    [224 + c.toNat / 4096, 128 + c.toNat / 64 % 64, 128 + c.toNat % 64]
  else
    [240 + c.toNat / 262144, 128 + c.toNat / 4096 % 64, 128 + c.toNat / 64 % 64,
      128 + c.toNat % 64]

/-- Percent escape of one byte, with uppercase hexadecimal digits. -/
def pctByte (b : Nat) : List Char := ['%', hexDigitU (b / 16), hexDigitU (b % 16)]

/-- Characters that encodeURIComponent leaves unescaped: ASCII letters and
digits, and `- _ . ! ~ * ( )` together with the apostrophe (code 39). -/
def uriUnreserved (c : Char) : Bool :=
  (65 ≤ c.toNat ∧ c.toNat ≤ 90) || (97 ≤ c.toNat ∧ c.toNat ≤ 122) ||
    (48 ≤ c.toNat ∧ c.toNat ≤ 57) || c.toNat = 45 || c.toNat = 95 || c.toNat = 46 ||
    c.toNat = 33 || c.toNat = 126 || c.toNat = 42 || c.toNat = 39 || c.toNat = 40 ||
    c.toNat = 41

/-- Encoding of a single character: kept verbatim when unreserved, otherwise each
byte of its UTF-8 encoding is percent-escaped. -/
def encChar (c : Char) : List Char :=
  if uriUnreserved c then [c] else ((utf8Bytes c).map pctByte).flatten

/-- Model of `encodeURIComponent` on character lists. -/
def encodeURIComponentL : List Char → List Char
  | [] => []
  | c :: cs => encChar c ++ encodeURIComponentL cs

/-- Model of `encodeURIComponent` on strings. -/
def encodeURIComponentS (s : String) : String := String.mk (encodeURIComponentL s.toList)

/-- Token stream of the ECMAScript Decode algorithm: a `%XY` escape contributes
the byte `XY`; any other character passes through unchanged. -/
inductive UriTok where
  | raw (c : Char)
  | byte (b : Nat)
deriving DecidableEq, Repr

/-- Scan of the input into tokens.  A `%` not followed by two hexadecimal digits
is a URIError (modelled as `none`). -/
def uriToks : List Char → Option (List UriTok)
  | [] => some []
  | c :: rest =>
    if c = '%' then
      match rest with
      | h1 :: h2 :: rest2 =>
        match hexVal h1, hexVal h2 with
        | some a, some b => (uriToks rest2).map (UriTok.byte (16 * a + b) :: ·)
        | _, _ => none
      | _ => none
    else (uriToks rest).map (UriTok.raw c :: ·)

/-- Strict UTF-8 decoding of the token stream, per the ECMAScript Decode
algorithm, written as a state machine: `none` means no multibyte sequence is
pending; `some (k, acc, lo)` means `k` more continuation escapes must follow,
`acc` holds the code-point bits read so far and `lo` is the smallest code point
the sequence may legally produce (overlong forms, surrogates and out-of-range
values are URIErrors). -/
def decodeAux : Option (Nat × Nat × Nat) → List UriTok → Option (List Char)
  | none, [] => some []
  | some _, [] => none
  | none, .raw c :: ts => (decodeAux none ts).map (c :: ·)
  | none, .byte b :: ts =>
    if b < 128 then (decodeAux none ts).map (Char.ofNat b :: ·)
    else if b < 192 then none
    else if b < 224 then decodeAux (some (1, b - 192, 128)) ts
    else if b < 240 then decodeAux (some (2, b - 224, 2048)) ts
    else if b < 248 then decodeAux (some (3, b - 240, 65536)) ts
    else none
  | some _, .raw _ :: _ => none
  | some (k, acc, lo), .byte b :: ts =>
    if 128 ≤ b ∧ b < 192 then
      if k ≤ 1 then
        if lo ≤ acc * 64 + (b - 128) ∧ acc * 64 + (b - 128) < 1114112 ∧
            ¬ (55296 ≤ acc * 64 + (b - 128) ∧ acc * 64 + (b - 128) < 57344) then
          (decodeAux none ts).map (Char.ofNat (acc * 64 + (b - 128)) :: ·)
        else none
      else decodeAux (some (k - 1, acc * 64 + (b - 128), lo)) ts
    else none

/-- Model of `decodeURIComponent` on character lists; `none` is a thrown
URIError. -/
def decodeURIComponentL (l : List Char) : Option (List Char) :=
  (uriToks l).bind (decodeAux none)

/-- Token contribution of one source character to the scan of its encoding. -/
def tokOf (c : Char) : List UriTok :=
  if uriUnreserved c then [UriTok.raw c] else (utf8Bytes c).map UriTok.byte

/-! ### JavaScript string and object helpers -/

/-- JS String.prototype.split with a one-character separator. -/
def charSplit (sep : Char) : List Char → List (List Char)
  | [] => [[]]
  | c :: rest =>
    if c = sep then [] :: charSplit sep rest
    else
      match charSplit sep rest with
      | g :: gs => (c :: g) :: gs
      | [] => [[c]]

/-- JS Array.prototype.join with a one-character separator. -/
def joinChar (sep : Char) : List (List Char) → List Char
  | [] => []
  | [g] => g
  | g :: gs => g ++ sep :: joinChar sep gs

/-- JS whitespace recognized by String.prototype.trim (ASCII part). -/
def jsWs (c : Char) : Bool :=
  c.toNat = 32 || c.toNat = 9 || c.toNat = 10 || c.toNat = 11 || c.toNat = 12 || c.toNat = 13

/-- JS String.prototype.trim. -/
def trimL (l : List Char) : List Char :=
  ((l.dropWhile jsWs).reverse.dropWhile jsWs).reverse

/-- JS object property write: an existing key is overwritten in place, a new key
is appended, preserving the insertion order of object properties. -/
def objSet {α : Type} : List (String × α) → String → α → List (String × α)
  | [], k, v => [(k, v)]
  | (k0, v0) :: rest, k, v =>
    if k0 = k then (k0, v) :: rest else (k0, v0) :: objSet rest k v

/-! ### Request cookie parsing (src/index.ts parseCookies) -/

/-- Handling of one pair inside parseCookies: the pair is trimmed and split on
every `=` (JS String.split), the destructuring takes the first piece as the name
and the second as the value; a pair whose name or value comes out empty
(missing value included) is skipped; otherwise name and value are
percent-decoded and written into the cookie object.  A `none` result models the
decodeURIComponent URIError escaping the parser. -/
def parseCookiePair (acc : List (String × String)) (pr : List Char) :
    Option (List (String × String)) :=
  let parts := charSplit '=' (trimL pr)
  let name := parts.getD 0 []
  let value := parts.getD 1 []
  if name ≠ [] ∧ value ≠ [] then
    match decodeURIComponentL name, decodeURIComponentL value with
    | some n, some v => some (objSet acc (String.mk n) (String.mk v))
    | _, _ => none
  else some acc

def parseCookiesAux (acc : List (String × String)) :
    List (List Char) → Option (List (String × String))
  | [] => some acc
  | pr :: rest =>
    match parseCookiePair acc pr with
    | some acc2 => parseCookiesAux acc2 rest
    | none => none

/-- Model of parseCookies (src/index.ts lines 447-461): a null or empty Cookie
header yields the empty map, otherwise the header splits on every `;` and each
pair is processed in order. -/
def parseCookies (header : Option String) : Option (List (String × String)) :=
  match header with
  | none => some []
  | some s =>
    if s = "" then some []
    else parseCookiesAux [] (charSplit ';' s.toList)

/-- Declarative pair handling following the amended claim C8: after trimming,
the name is everything before the first `=` and the value is everything between
the first and the second `=` (a value containing `=` is truncated at the next
`=`); pairs whose name or value comes out empty are skipped. -/
def cookiePairSpec (pr : List Char) : Option (List Char × List Char) :=
  let t := trimL pr
  let name := t.takeWhile (· ≠ '=')
  let value := ((t.dropWhile (· ≠ '=')).drop 1).takeWhile (· ≠ '=')
  if name ≠ [] ∧ value ≠ [] then some (name, value) else none

def parseCookiesSpecAux (acc : List (String × String)) :
    List (List Char) → Option (List (String × String))
  | [] => some acc
  | pr :: rest =>
    match cookiePairSpec pr with
    | some (name, value) =>
      match decodeURIComponentL name, decodeURIComponentL value with
      | some n, some v => parseCookiesSpecAux (objSet acc (String.mk n) (String.mk v)) rest
      | _, _ => none
    | none => parseCookiesSpecAux acc rest

/-- Cookie-header parser written out as the amended claim C8 describes it. -/
def parseCookiesSpec (header : Option String) : Option (List (String × String)) :=
  match header with
  | none => some []
  | some s =>
    if s = "" then some []
    else parseCookiesSpecAux [] (charSplit ';' s.toList)

/-! ### Response cookie serialization (src/index.ts handleRequest, Set-Cookie assembly) -/

/-- Cookie value object (src/index.ts interface Cookie).  The optional expires
date is modelled by its rendered toUTCString text; a Date object is always
truthy, so its gate is presence alone. -/
structure Cookie where
  name : String
  value : String
  domain : Option String := none
  path : Option String := none
  expires : Option String := none
  maxAge : Option Int := none
  secure : Option Bool := none
  httpOnly : Option Bool := none
  sameSite : Option String := none
deriving DecidableEq, Repr

/-- Truthiness of an optional JS string: undefined and the empty string are falsy. -/
def optStrTruthy (o : Option String) : Bool :=
  match o with
  | some s => s ≠ ""
  | none => false

/-- Truthiness of an optional JS number: undefined and 0 are falsy. -/
def optNumTruthy (o : Option Int) : Bool :=
  match o with
  | some n => n ≠ 0
  | none => false

/-- Leading name=value part of a serialized cookie. -/
def cookieNameValue (c : Cookie) : String :=
  encodeURIComponentS c.name ++ "=" ++ encodeURIComponentS c.value

/-- Serialization of one cookie into a Set-Cookie header line, with the
truthiness-gated attribute appends of src/index.ts lines 715-727. -/
def renderCookie (c : Cookie) : String :=
  cookieNameValue c
    ++ (if optStrTruthy c.domain then "; Domain=" ++ c.domain.getD "" else "")
    ++ (if optStrTruthy c.path then "; Path=" ++ c.path.getD "" else "")
    ++ (if c.expires.isSome then "; Expires=" ++ c.expires.getD "" else "")
    ++ (if optNumTruthy c.maxAge then "; Max-Age=" ++ toString (c.maxAge.getD 0) else "")
    ++ (if c.secure.getD false then "; Secure" else "")
    ++ (if c.httpOnly.getD false then "; HttpOnly" else "")
    ++ (if optStrTruthy c.sameSite then "; SameSite=" ++ c.sameSite.getD "" else "")

/-- Normal form with the falsy-gated attributes removed. -/
def dropFalsyAttrs (c : Cookie) : Cookie :=
  { c with
    domain := if c.domain = some "" then none else c.domain,
    path := if c.path = some "" then none else c.path,
    maxAge := if c.maxAge = some 0 then none else c.maxAge,
    secure := if c.secure = some false then none else c.secure,
    httpOnly := if c.httpOnly = some false then none else c.httpOnly }

/-- Header name of the i-th Set-Cookie line: the first cookie uses Set-Cookie,
later ones the synthetic names Set-Cookie-1, Set-Cookie-2, and so on. -/
def setCookieKey (i : Nat) : String :=
  if i = 0 then "Set-Cookie" else "Set-Cookie-" ++ toString i

/-- Folding the rendered cookie lines into the response header object. -/
def addSetCookieHeaders (hs : List (String × String)) (cs : List Cookie) :
    List (String × String) :=
  ((cs.map renderCookie).enum).foldl (fun m iv => objSet m (setCookieKey iv.1) iv.2) hs

/-! ### Route table and path matcher (src/index.ts matchRoute / getAllRoutes) -/

/-- Route record: method, path pattern, and an opaque tag standing for the
handler/config reference, never inspected by the matcher. -/
structure Route where
  method : String
  path : String
  tag : Nat
deriving DecidableEq, Repr

/-- Nonempty segments of a path: path.split('/').filter(Boolean). -/
def pathSegs (s : String) : List (List Char) :=
  (charSplit '/' s.toList).filter (· ≠ [])

/-- Outcome of matching one route pattern against a pathname. -/
inductive SegOutcome where
  | ok (params : List (String × String))
  | noMatch
  | uriError
deriving DecidableEq, Repr

/-- Faithful translation of the per-segment loop of matchRoute (src/index.ts
lines 322-354): route segments and path segments are consumed in sync, and a
final `*` captures the remaining path segments joined by `/` without decoding. -/
def matchLoop : List (List Char) → List (List Char) → List (String × String) → SegOutcome
  | [], _, params => .ok params
  | r :: rs, ps, params =>
    if r = [] then .noMatch
    else if r = ['*'] ∧ rs = [] then .ok (objSet params "*" (String.mk (joinChar '/' ps)))
    else
      match ps with
      | [] => .noMatch
      | p :: ps1 =>
        if p = [] then .noMatch
        else if r.head? = some ':' then
          match decodeURIComponentL p with
          | some d => matchLoop rs ps1 (objSet params (String.mk (r.drop 1)) (String.mk d))
          | none => .uriError
        else if r = ['*'] then
          match decodeURIComponentL p with
          | some d => matchLoop rs ps1 (objSet params "*" (String.mk d))
          | none => .uriError
        else if r = p then matchLoop rs ps1 params
        else .noMatch

/-- One route check inside matchRoute: segment splitting with the Boolean
filter, the trailing-wildcard length precheck, then the loop. -/
def matchSegments (routePath pathname : String) : SegOutcome :=
  let routeSegments := pathSegs routePath
  let pathSegments := pathSegs pathname
  if routeSegments.getLast? = some ['*'] then
    if pathSegments.length < routeSegments.length - 1 then .noMatch
    else matchLoop routeSegments pathSegments []
  else
    if routeSegments.length ≠ pathSegments.length then .noMatch
    else matchLoop routeSegments pathSegments []

/-- Faithful translation of the route loop of matchRoute: routes are tried in
list order, a route with the wrong method or a non-matching pattern is skipped,
and the first full match wins.  A URIError thrown while decoding a parameter
escapes the dispatcher (Except.error). -/
def matchRoutes : List Route → String → String →
    Except Unit (Option (Route × List (String × String)))
  | [], _, _ => .ok none
  | r :: rs, method, pathname =>
    if r.method ≠ method then matchRoutes rs method pathname
    else
      match matchSegments r.path pathname with
      | .ok params => .ok (some (r, params))
      | .noMatch => matchRoutes rs method pathname
      | .uriError => .error ()

/-! ### Engine composition (src/index.ts use / getAllRoutes) -/

/-- Per-instance routing state: own routes and references, by id, to the
embedded plugin instances. -/
structure EngineData where
  routes : List Route := []
  plugins : List Nat := []
deriving Repr

/-- Heap of engine instances: use() stores a reference to the child, so
mutating a child after embedding is observable from the parent (no
snapshotting). -/
def Store := Nat → EngineData

/-- Model of use(bxoInstance): append the child reference to the plugin list. -/
def useChild (st : Store) (parent child : Nat) : Store :=
  fun i =>
    if i = parent then { st parent with plugins := (st parent).plugins ++ [child] }
    else st i

/-- Model of get/post/put/delete/patch: append one route to the instance's own
route list. -/
def addRoute (st : Store) (id : Nat) (r : Route) : Store :=
  fun i =>
    if i = id then { st id with routes := (st id).routes ++ [r] }
    else st i

/-- Model of getAllRoutes (src/index.ts lines 282-288): the instance's own
routes followed by each direct plugin's own routes, in use() order; recomputed
lazily at dispatch time. -/
def getAllRoutes (st : Store) (id : Nat) : List Route :=
  (st id).routes ++ ((st id).plugins.map (fun p => (st p).routes)).flatten

/-- Model of matchRoute at the instance level. -/
def matchRoute (st : Store) (id : Nat) (method pathname : String) :
    Except Unit (Option (Route × List (String × String))) :=
  matchRoutes (getAllRoutes st id) method pathname

/-- One-route check used by the declarative matcher characterization: the route
matches when its method equals the request method and its pattern matches the
pathname. -/
def tryRoute (method pathname : String) (r : Route) :
    Option (Route × List (String × String)) :=
  if r.method = method then
    match matchSegments r.path pathname with
    | .ok params => some (r, params)
    | _ => none
  else none

/-! ### JavaScript values, wire responses and JSON serialization -/

/-- Wire-level HTTP response (the Response objects the dispatcher builds or
passes through).  `body = none` models a null/undefined body. -/
structure WireResponse where
  status : Nat
  headers : List (String × String)
  body : Option String
deriving DecidableEq, Repr

/-- Dynamic JavaScript value as the dispatcher sees it: primitive values,
arrays, plain objects, Error objects (by their message), and opaque Response
objects.  File handles are outside the modelled domain. -/
inductive JVal where
  | undef
  | jnull
  | jbool (b : Bool)
  | jnum (n : Int)
  | jstr (s : String)
  | jarr (elems : List JVal)
  | jobj (fields : List (String × JVal))
  | jerr (message : String)
  | jresp (r : WireResponse)

/-- JS truthiness. -/
def truthy : JVal → Bool
  | .undef => false
  | .jnull => false
  | .jbool b => b
  | .jnum n => n != 0
  | .jstr s => s ≠ ""
  | .jarr _ => true
  | .jobj _ => true
  | .jerr _ => true
  | .jresp _ => true

/-- Lowercase hexadecimal digits, as produced by JSON.stringify escapes. -/
def hexDigitsLow : List Char := "0123456789abcdef".toList

/-- JSON string escaping of one character. -/
def escChar (c : Char) : List Char :=
  if c = '\"' then ['\\', '\"']
  else if c = '\\' then ['\\', '\\']
  else if c.toNat = 10 then ['\\', 'n']
  else if c.toNat = 13 then ['\\', 'r']
  else if c.toNat = 9 then ['\\', 't']
  else if c.toNat = 8 then ['\\', 'b']
  else if c.toNat = 12 then ['\\', 'f']
  else if c.toNat < 32 then
    ['\\', 'u', '0', '0', hexDigitsLow.getD (c.toNat / 16) '0', hexDigitsLow.getD (c.toNat % 16) '0']
  else [c]

/-- JSON quoting of a string. -/
def jsonQuote (s : String) : String :=
  "\"" ++ String.mk ((s.toList.map escChar).flatten) ++ "\""

/-- Comma-joined list of rendered JSON items. -/
def commaJoin : List String → String
  | [] => ""
  | [s] => s
  | s :: rest => s ++ "," ++ commaJoin rest

mutual

/-- JSON.stringify of one value: undefined inside an array renders as null,
Error and Response objects have no enumerable properties. -/
def stringifyV : JVal → String
  | .undef => "null"
  | .jnull => "null"
  | .jbool b => if b then "true" else "false"
  | .jnum n => toString n
  | .jstr s => jsonQuote s
  | .jarr es => "[" ++ commaJoin (stringifyElems es) ++ "]"
  | .jobj fs => "\x7b" ++ commaJoin (stringifyFields fs) ++ "\x7d"
  | .jerr _ => "\x7b\x7d"
  | .jresp _ => "\x7b\x7d"

def stringifyElems : List JVal → List String
  | [] => []
  | v :: vs => stringifyV v :: stringifyElems vs

/-- Object properties: a property whose value is undefined is dropped. -/
def stringifyFields : List (String × JVal) → List String
  | [] => []
  | (k, v) :: fs =>
    match v with
    | .undef => stringifyFields fs
    | _ => (jsonQuote k ++ ":" ++ stringifyV v) :: stringifyFields fs

end

/-- JSON.stringify at the top level: undefined serializes to no body at all. -/
def stringifyTop : JVal → Option String
  | .undef => none
  | v => some (stringifyV v)

/-! ### Validation contract (zod adapter) and route configuration -/

/-- Structured validation issue (path into the value plus a message), the shape
zod reports in error.issues. -/
structure VIssue where
  path : List String
  message : String
deriving DecidableEq, Repr

/-- A schema is modelled by its parse function: return the (possibly coerced)
value or throw a structured issue list. -/
def Validator := JVal → Except (List VIssue) JVal

/-- Response configuration: either a single schema applied regardless of
status, or a mapping from status code to schema. -/
inductive RespConfig where
  | single (v : Validator)
  | byStatus (m : List (Nat × Validator))

/-- Route configuration (src/index.ts interface RouteConfig); the opaque
detail metadata is never interpreted and is omitted. -/
structure RouteConfig where
  params : Option Validator := none
  query : Option Validator := none
  body : Option Validator := none
  headers : Option Validator := none
  cookies : Option Validator := none
  response : Option RespConfig := none

/-- validateData: with no schema the raw value passes through unchanged. -/
def vPart (v : Option Validator) (x : JVal) : Except (List VIssue) JVal :=
  match v with
  | some s => s x
  | none => .ok x

/-- Parsed request parts handed to context construction. -/
structure ReqParts where
  params : JVal := .jobj []
  query : JVal := .jobj []
  body : JVal := .undef
  headers : JVal := .jobj []
  cookies : JVal := .jobj []

/-- Validation of the five request parts, in source order (params, query, body,
headers, cookies), inside one try: the first failure aborts. -/
def validateParts (cfg : RouteConfig) (raw : ReqParts) : Except (List VIssue) ReqParts := do
  let p ← vPart cfg.params raw.params
  let q ← vPart cfg.query raw.query
  let b ← vPart cfg.body raw.body
  let h ← vPart cfg.headers raw.headers
  let c ← vPart cfg.cookies raw.cookies
  pure { params := p, query := q, body := b, headers := h, cookies := c }

/-- Fallback loop of validateResponse over the fixed preference list. -/
def fallbackSchema (m : List (Nat × Validator)) : List Nat → Option Validator
  | [] => none
  | s :: rest =>
    match List.lookup s m with
    | some v => some v
    | none => fallbackSchema m rest

/-- Fixed fallback preference order of validateResponse. -/
def fallbackStatuses : List Nat := [200, 201, 400, 500]

/-- Model of validateResponse (src/index.ts lines 470-499): a single schema is
applied directly; a status-keyed mapping is consulted at the current status,
then through the fallback list, and if nothing is found the data passes through
unchanged. -/
def validateResponse (rc : RespConfig) (data : JVal) (status : Nat) :
    Except (List VIssue) JVal :=
  match rc with
  | .single v => v data
  | .byStatus m =>
    match List.lookup status m with
    | some v => v data
    | none =>
      match fallbackSchema m fallbackStatuses with
      | some v => v data
      | none => .ok data

/-- Declarative schema resolution for a status-keyed response config, following
claim C4: the schema at the current status, else the first schema present along
the preference order 200, 201, 400, 500. -/
def resolveStatusSchema (m : List (Nat × Validator)) (status : Nat) : Option Validator :=
  match List.lookup status m with
  | some v => some v
  | none => fallbackSchema m fallbackStatuses

/-! ### Request context, hooks and the dispatcher -/

/-- The ctx.set block accumulated by hooks and the handler. -/
structure SetState where
  status : Option Nat := none
  headers : Option (List (String × String)) := none
  cookies : Option (List Cookie) := none
deriving DecidableEq, Repr

/-- Per-request context. -/
structure Ctx where
  params : JVal
  query : JVal
  body : JVal
  headers : JVal
  cookies : JVal
  path : String
  set : SetState

/-- A thrown JS value together with the context state at throw time (the JS
ctx object is mutated in place, so onError hooks observe those mutations). -/
def Thrown := JVal × Ctx

/-- onRequest hook: may mutate the context and may throw. -/
def OnRequestH := Ctx → Except Thrown Ctx

/-- onResponse hook: receives the running response value, may mutate the
context, may throw, and returns a candidate replacement value. -/
def OnResponseH := Ctx → JVal → Except Thrown (Ctx × JVal)

/-- onError hook: receives the thrown error, may throw itself, and returns a
candidate error response value. -/
def OnErrorH := Ctx → JVal → Except Thrown (Ctx × JVal)

/-- Route handler. -/
def HandlerH := Ctx → Except Thrown (Ctx × JVal)

/-- Request-cycle hook set of one engine instance (at most one of each kind). -/
structure HookSet where
  onRequest : Option OnRequestH := none
  onResponse : Option OnResponseH := none
  onError : Option OnErrorH := none

/-- Dispatch view of an engine: its own hooks plus the hook sets of its
embedded plugins, in use() order. -/
structure Engine where
  hooks : HookSet := {}
  plugins : List HookSet := []

/-- Observable pipeline events: which hook or handler ran, in order.  Index 0
is the instance's own hook, index i+1 the i-th plugin's. -/
inductive Ev where
  | evOnRequest (who : Nat)
  | evHandler
  | evOnResponse (who : Nat)
  | evOnError (who : Nat)
deriving DecidableEq, Repr

/-- The onRequest hook loop: own hook first (index 0), then each plugin's, in
order; a throw aborts the walk. -/
def runReqHooksAux : Nat → List HookSet → Ctx → List Ev × Except Thrown Ctx
  | _, [], ctx => ([], .ok ctx)
  | i, hs :: rest, ctx =>
    match hs.onRequest with
    | none => runReqHooksAux (i + 1) rest ctx
    | some f =>
      match f ctx with
      | .ok ctx2 =>
        let out := runReqHooksAux (i + 1) rest ctx2
        (Ev.evOnRequest i :: out.1, out.2)
      | .error exc => ([Ev.evOnRequest i], .error exc)

/-- The onResponse hook loop: response = (await hook(ctx, response)) ||
response, so a falsy return keeps the previous value. -/
def runRespHooksAux : Nat → List HookSet → Ctx → JVal → List Ev × Except Thrown (Ctx × JVal)
  | _, [], ctx, v => ([], .ok (ctx, v))
  | i, hs :: rest, ctx, v =>
    match hs.onResponse with
    | none => runRespHooksAux (i + 1) rest ctx v
    | some f =>
      match f ctx v with
      | .ok (ctx2, r) =>
        let out := runRespHooksAux (i + 1) rest ctx2 (if truthy r then r else v)
        (Ev.evOnResponse i :: out.1, out.2)
      | .error exc => ([Ev.evOnResponse i], .error exc)

/-- The plugin part of the catch block: errorResponse = (await hook(ctx, error))
|| errorResponse. -/
def runErrPluginsAux : Nat → List HookSet → Ctx → JVal → JVal →
    List Ev × Except Thrown (Ctx × JVal)
  | _, [], ctx, _, acc => ([], .ok (ctx, acc))
  | i, hs :: rest, ctx, ex, acc =>
    match hs.onError with
    | none => runErrPluginsAux (i + 1) rest ctx ex acc
    | some f =>
      match f ctx ex with
      | .ok (ctx2, r) =>
        let out := runErrPluginsAux (i + 1) rest ctx2 ex (if truthy r then r else acc)
        (Ev.evOnError i :: out.1, out.2)
      | .error exc => ([Ev.evOnError i], .error exc)

/-- Message extraction of the default error response: error.message when the
thrown value is an Error object, the generic text otherwise (in particular for
a thrown Response). -/
def errMessage : JVal → String
  | .jerr m => m
  | _ => "Internal Server Error"

/-- End of the catch block: a truthy errorResponse is returned (verbatim when
it is a Response, JSON-serialized with status 500 otherwise); with no hook
response, a default 500 carrying the error message is emitted. -/
def errRespFinalize (ex : JVal) (acc : JVal) : WireResponse :=
  if truthy acc then
    match acc with
    | .jresp r => r
    | v =>
      { status := 500, headers := [("Content-Type", "application/json")],
        body := stringifyTop v }
  else
    { status := 500, headers := [("Content-Type", "application/json")],
      body := stringifyTop (.jobj [("error", .jstr (errMessage ex))]) }

/-- The catch block of handleRequest (src/index.ts lines 752-782): the own
onError hook sets the candidate error response by direct assignment, each
plugin hook may override it when returning a truthy value, then the result is
finalized.  A throw из an onError hook escapes handleRequest. -/
def errorPhase (e : Engine) (ctx : Ctx) (ex : JVal) : List Ev × Except Thrown WireResponse :=
  match e.hooks.onError with
  | none =>
    let out := runErrPluginsAux 1 e.plugins ctx ex JVal.undef
    (out.1, match out.2 with
      | .ok (_, acc) => .ok (errRespFinalize ex acc)
      | .error exc => .error exc)
  | some f =>
    match f ctx ex with
    | .ok (ctx2, r) =>
      let out := runErrPluginsAux 1 e.plugins ctx2 ex r
      (Ev.evOnError 0 :: out.1, match out.2 with
        | .ok (_, acc) => .ok (errRespFinalize ex acc)
        | .error exc => .error exc)
    | .error exc => ([Ev.evOnError 0], .error exc)

/-- JS `x || d` on the optional numeric status: undefined and 0 fall back to d. -/
def jsNumOr (o : Option Nat) (d : Nat) : Nat :=
  match o with
  | some n => if n = 0 then d else n
  | none => d

/-- JS object spread merge: keys of the second object overwrite the first. -/
def objMerge (base over : List (String × String)) : List (String × String) :=
  over.foldl (fun m kv => objSet m kv.1 kv.2) base

/-- Response materializer (src/index.ts lines 676-750, file branches outside
the modelled domain): a Response passes through verbatim; otherwise the headers
are ctx.set.headers plus the Set-Cookie lines, the status is set.status || 200,
a string becomes the body verbatim, and any other value is JSON-serialized with
Content-Type application/json merged under the set headers. -/
def materialize (ctx : Ctx) (response : JVal) : WireResponse :=
  match response with
  | .jresp r => r
  | _ =>
    let hs0 := match ctx.set.headers with
      | some hs => hs
      | none => []
    let hs1 := match ctx.set.cookies with
      | some cs => if 0 < cs.length then addSetCookieHeaders hs0 cs else hs0
      | none => hs0
    let status := jsNumOr ctx.set.status 200
    match response with
    | .jstr s => { status := status, headers := hs1, body := some s }
    | v =>
      { status := status, headers := objMerge [("Content-Type", "application/json")] hs1,
        body := stringifyTop v }

/-- Aggregate message of a validation failure. -/
def vIssuesMsg (stem : String) (issues : List VIssue) : String :=
  if 0 < issues.length then stem ++ " for " ++ toString issues.length ++ " field(s)"
  else stem

/-- Rendering of one structured issue into the JSON details list. -/
def issueToJVal (i : VIssue) : JVal :=
  .jobj [("path", .jarr (i.path.map .jstr)), ("message", .jstr i.message)]

/-- Body of a validation failure response: an aggregate error message plus the
structured issue list. -/
def vFailBody (stem : String) (issues : List VIssue) : JVal :=
  .jobj [("error", .jstr (vIssuesMsg stem issues)),
    ("details", .jarr (issues.map issueToJVal))]

/-- Terminal 400 emitted when request validation fails. -/
def validationErrorResp (issues : List VIssue) : WireResponse :=
  { status := 400, headers := [("Content-Type", "application/json")],
    body := stringifyTop (vFailBody "Validation failed" issues) }

/-- Terminal 500 emitted when response validation fails. -/
def respValidationErrorResp (issues : List VIssue) : WireResponse :=
  { status := 500, headers := [("Content-Type", "application/json")],
    body := stringifyTop (vFailBody "Response validation failed" issues) }

/-- The dispatcher from context construction onward (src/index.ts lines
566-782): request-part validation (failure is a terminal 400 before any hook or
the handler runs), the onRequest hooks, the handler, the onResponse hooks,
response validation, materialization; any throw in the try block routes through
the catch block (errorPhase).  The first component is the event log. -/
def handleRequestCore (e : Engine) (cfg : RouteConfig) (handler : HandlerH)
    (raw : ReqParts) (path : String) : List Ev × Except Thrown WireResponse :=
  match validateParts cfg raw with
  | .error issues => ([], .ok (validationErrorResp issues))
  | .ok parts =>
    let ctx0 : Ctx :=
      { params := parts.params, query := parts.query, body := parts.body,
        headers := parts.headers, cookies := parts.cookies, path := path, set := {} }
    let req := runReqHooksAux 0 (e.hooks :: e.plugins) ctx0
    match req.2 with
    | .error exc =>
      let er := errorPhase e exc.2 exc.1
      (req.1 ++ er.1, er.2)
    | .ok ctx1 =>
      match handler ctx1 with
      | .error exc =>
        let er := errorPhase e exc.2 exc.1
        (req.1 ++ [Ev.evHandler] ++ er.1, er.2)
      | .ok (ctx2, resp0) =>
        let rh := runRespHooksAux 0 (e.hooks :: e.plugins) ctx2 resp0
        match rh.2 with
        | .error exc =>
          let er := errorPhase e exc.2 exc.1
          (req.1 ++ [Ev.evHandler] ++ rh.1 ++ er.1, er.2)
        | .ok (ctx3, resp1) =>
          let log := req.1 ++ [Ev.evHandler] ++ rh.1
          let vres : Except (List VIssue) JVal :=
            match cfg.response, resp1 with
            | some _, .jresp _ => .ok resp1
            | some rc, v => validateResponse rc v (jsNumOr ctx3.set.status 200)
            | none, v => .ok v
          match vres with
          | .ok v2 => (log, .ok (materialize ctx3 v2))
          | .error issues => (log, .ok (respValidationErrorResp issues))

/-! ### Declarative matcher specification (amended claim C5) -/

/-- Declarative segment matching as the amended claim C5 states it: a literal
pattern segment must equal the raw, undecoded pathname segment (case-sensitive);
a `:name` segment binds the percent-decoded pathname segment under name; a `*`
segment in final position binds the raw remainder joined by `/`, while a
non-final `*` binds one decoded segment; bindings are written left to right
with object-update semantics. -/
inductive SegsMatch :
    List (List Char) → List (List Char) → List (String × String) →
      List (String × String) → Prop where
  | nil (params : List (String × String)) : SegsMatch [] [] params params
  | wildEnd (ps : List (List Char)) (params : List (String × String)) :
      SegsMatch [['*']] ps params (objSet params "*" (String.mk (joinChar '/' ps)))
  | named (name p d : List Char) (rs ps : List (List Char))
      (params out : List (String × String)) (hp : p ≠ [])
      (hd : decodeURIComponentL p = some d)
      (h : SegsMatch rs ps (objSet params (String.mk name) (String.mk d)) out) :
      SegsMatch ((':' :: name) :: rs) (p :: ps) params out
  | wildMid (p d : List Char) (rs ps : List (List Char))
      (params out : List (String × String)) (hrs : rs ≠ []) (hp : p ≠ [])
      (hd : decodeURIComponentL p = some d)
      (h : SegsMatch rs ps (objSet params "*" (String.mk d)) out) :
      SegsMatch (['*'] :: rs) (p :: ps) params out
  | lit (r : List Char) (rs ps : List (List Char)) (params out : List (String × String))
      (hr : r ≠ []) (hc : r.head? ≠ some ':') (hw : r ≠ ['*'])
      (h : SegsMatch rs ps params out) :
      SegsMatch (r :: rs) (r :: ps) params out

/-- The length precondition the matchSegments prechecks establish before the
loop runs. -/
def lenOk (rs ps : List (List Char)) : Prop :=
  (rs.getLast? = some ['*'] ∧ rs.length - 1 ≤ ps.length) ∨
  (rs.getLast? ≠ some ['*'] ∧ rs.length = ps.length)

/-! ### Declarative onResponse fold (claim C6) -/

/-- One step of the declarative onResponse fold: the hook may replace the
running value only when it returns a truthy value; a throw aborts. -/
def respHookStep (s : Ctx × JVal) (f : OnResponseH) : Except Thrown (Ctx × JVal) :=
  match f s.1 s.2 with
  | .ok (ctx2, r) => .ok (ctx2, if truthy r then r else s.2)
  | .error exc => .error exc

/-- The onResponse hooks actually present: own hook first, then each plugin's,
in use() order. -/
def presentRespHooks (hsets : List HookSet) : List OnResponseH :=
  hsets.filterMap (fun hs => hs.onResponse)

/-! ### Concrete fixtures used by the claim theorems -/

/-- A CORS-style preflight response thrown by an onRequest hook. -/
def corsPreflight : WireResponse :=
  { status := 204, headers := [("Access-Control-Allow-Origin", "*")], body := none }

/-- Engine whose own onRequest hook throws the preflight Response (the
mechanism the bundled cors/auth/rateLimit middlewares use). -/
def throwingEngine : Engine :=
  { hooks := { onRequest := some (fun ctx => .error (.jresp corsPreflight, ctx)) } }

/-- Handler that returns the string ok. -/
def okHandler : HandlerH := fun ctx => .ok (ctx, .jstr "ok")

/-- The default 500 the catch block emits when no onError hook answers. -/
def internalErrorResp : WireResponse :=
  { status := 500, headers := [("Content-Type", "application/json")],
    body := some (stringifyV (.jobj [("error", .jstr "Internal Server Error")])) }

/-- Validator that rejects every value with one structured issue. -/
def vReject : Validator := fun _ => .error [{ path := ["name"], message := "Required" }]

/-- Validator that accepts every value unchanged. -/
def vAccept : Validator := fun v => .ok v

/-- Validator that replaces the value by a fixed string (observable coercion). -/
def vConst (s : String) : Validator := fun _ => .ok (.jstr s)

/-- Handler that records a status through ctx.set and returns a payload. -/
def handlerSet (n : Nat) (v : JVal) : HandlerH :=
  fun ctx => .ok ({ ctx with set := { ctx.set with status := some n } }, v)

/-- Handler returning a payload without touching the status. -/
def handlerPure (v : JVal) : HandlerH := fun ctx => .ok (ctx, v)

/-- onResponse hook appending a marker to a string-valued response. -/
def appendMarker (m : String) : OnResponseH := fun ctx v =>
  .ok (ctx, match v with
    | .jstr s => .jstr (s ++ m)
    | _ => .jstr m)

/-- onResponse hook that only observes: it returns a falsy value (null). -/
def observeOnly : OnResponseH := fun ctx _ => .ok (ctx, .jnull)

/-- Parent with an own appending onResponse hook and two appending plugins. -/
def markerEngine : Engine :=
  { hooks := { onResponse := some (appendMarker "P") },
    plugins := [{ onResponse := some (appendMarker "1") },
      { onResponse := some (appendMarker "2") }] }

/-- Parent with an own appender, one plugin appender, and one observer plugin. -/
def markerEngine2 : Engine :=
  { hooks := { onResponse := some (appendMarker "P") },
    plugins := [{ onResponse := some (appendMarker "1") },
      { onResponse := some observeOnly }] }

/-- A three-instance heap: instance 0 embeds instance 1, and instance 1 embeds
instance 2 (a grandchild of instance 0). -/
def demoStore : Store := fun i =>
  if i = 0 then { routes := [{ method := "GET", path := "/p", tag := 0 }], plugins := [1] }
  else if i = 1 then { routes := [{ method := "GET", path := "/q", tag := 1 }], plugins := [2] }
  else if i = 2 then { routes := [{ method := "GET", path := "/g", tag := 2 }], plugins := [] }
  else { routes := [], plugins := [] }

/-- A concrete context used to witness hook-level statements. -/
def demoCtx : Ctx :=
  { params := .jobj [], query := .jobj [], body := .undef, headers := .jobj [],
    cookies := .jobj [], path := "/", set := {} }

/-! ### Lemmas: percent codec -/

theorem hexVal_hexDigitU (h : Nat) (hh : h < 16) : hexVal (hexDigitU h) = some h := by
  interval_cases h <;> rfl

theorem char_isValid (c : Char) : c.toNat < 55296 ∨ (57343 < c.toNat ∧ c.toNat < 1114112) :=
  c.valid

theorem utf8Bytes_lt (c : Char) : ∀ b ∈ utf8Bytes c, b < 256 := by
  have hv := char_isValid c
  intro b hb
  unfold utf8Bytes at hb
  split at hb
  · simp at hb
    omega
  · split at hb
    · simp at hb
      omega
    · split at hb <;> simp at hb <;> omega

theorem uriToks_cons_raw (c : Char) (hc : c ≠ '%') (rest : List Char) :
    uriToks (c :: rest) = (uriToks rest).map (UriTok.raw c :: ·) := by
  cases rest with
  | nil =>
    rw [uriToks.eq_3 c [] (by intro h1 h2 r2 h; simp at h)]
    rw [if_neg hc]
  | cons d rest1 =>
    cases rest1 with
    | nil =>
      rw [uriToks.eq_3 c [d] (by intro h1 h2 r2 h; simp at h)]
      rw [if_neg hc]
    | cons e rest2 =>
      rw [uriToks.eq_2]
      rw [if_neg hc]

theorem uriToks_pctByte (b : Nat) (hb : b < 256) (rest : List Char) :
    uriToks (pctByte b ++ rest) = (uriToks rest).map (UriTok.byte b :: ·) := by
  have h1 : hexVal (hexDigitU (b / 16)) = some (b / 16) := hexVal_hexDigitU _ (by omega)
  have h2 : hexVal (hexDigitU (b % 16)) = some (b % 16) := hexVal_hexDigitU _ (by omega)
  have hb16 : 16 * (b / 16) + b % 16 = b := by omega
  show uriToks ('%' :: hexDigitU (b / 16) :: hexDigitU (b % 16) :: rest) = _
  rw [uriToks]
  simp [h1, h2, hb16]

theorem uriToks_pctBytes (bs : List Nat) (hbs : ∀ b ∈ bs, b < 256) (rest : List Char) :
    uriToks ((bs.map pctByte).flatten ++ rest) =
      (uriToks rest).map (bs.map UriTok.byte ++ ·) := by
  induction bs with
  | nil =>
    simp only [List.map_nil, List.flatten_nil, List.nil_append]
    cases h : uriToks rest <;> simp
  | cons b bs ih =>
    have hb : b < 256 := hbs b (by simp)
    have ih2 := ih (fun x hx => hbs x (by simp [hx]))
    simp only [List.map_cons, List.flatten_cons, List.append_assoc]
    rw [uriToks_pctByte b hb, ih2]
    cases h : uriToks rest <;> simp

theorem uriToks_encChar (c : Char) (rest : List Char) :
    uriToks (encChar c ++ rest) = (uriToks rest).map (tokOf c ++ ·) := by
  by_cases hu : uriUnreserved c
  · have hc : c ≠ '%' := by
      intro hceq
      subst hceq
      simp [uriUnreserved] at hu
    simp only [encChar, tokOf, if_pos hu, List.cons_append, List.nil_append]
    rw [uriToks_cons_raw c hc]
  · simp only [encChar, tokOf, if_neg hu]
    exact uriToks_pctBytes (utf8Bytes c) (utf8Bytes_lt c) rest

theorem uriToks_enc (l : List Char) :
    uriToks (encodeURIComponentL l) = some ((l.map tokOf).flatten) := by
  induction l with
  | nil => rfl
  | cons c cs ih =>
    simp only [encodeURIComponentL, List.map_cons, List.flatten_cons]
    rw [uriToks_encChar c, ih]
    rfl

theorem decodeAux_raw (c : Char) (ts : List UriTok) :
    decodeAux none (UriTok.raw c :: ts) = (decodeAux none ts).map (c :: ·) := by
  rw [decodeAux]

theorem decodeAux_byte1 (b : Nat) (hb : b < 128) (ts : List UriTok) :
    decodeAux none (UriTok.byte b :: ts) = (decodeAux none ts).map (Char.ofNat b :: ·) := by
  rw [decodeAux]
  rw [if_pos hb]

theorem decodeAux_lead2 (b : Nat) (hb : 192 ≤ b ∧ b < 224) (ts : List UriTok) :
    decodeAux none (UriTok.byte b :: ts) = decodeAux (some (1, b - 192, 128)) ts := by
  rw [decodeAux]
  rw [if_neg (by omega), if_neg (by omega), if_pos (by omega)]

theorem decodeAux_lead3 (b : Nat) (hb : 224 ≤ b ∧ b < 240) (ts : List UriTok) :
    decodeAux none (UriTok.byte b :: ts) = decodeAux (some (2, b - 224, 2048)) ts := by
  rw [decodeAux]
  rw [if_neg (by omega), if_neg (by omega), if_neg (by omega), if_pos (by omega)]

theorem decodeAux_lead4 (b : Nat) (hb : 240 ≤ b ∧ b < 248) (ts : List UriTok) :
    decodeAux none (UriTok.byte b :: ts) = decodeAux (some (3, b - 240, 65536)) ts := by
  rw [decodeAux]
  rw [if_neg (by omega), if_neg (by omega), if_neg (by omega), if_neg (by omega),
    if_pos (by omega)]

theorem decodeAux_cont (k acc lo b : Nat) (hb : 128 ≤ b ∧ b < 192) (hk : 2 ≤ k)
    (ts : List UriTok) :
    decodeAux (some (k, acc, lo)) (UriTok.byte b :: ts) =
      decodeAux (some (k - 1, acc * 64 + (b - 128), lo)) ts := by
  rw [decodeAux]
  rw [if_pos hb, if_neg (by omega)]

theorem decodeAux_fin (acc lo b : Nat) (hb : 128 ≤ b ∧ b < 192)
    (hok : lo ≤ acc * 64 + (b - 128) ∧ acc * 64 + (b - 128) < 1114112 ∧
      ¬ (55296 ≤ acc * 64 + (b - 128) ∧ acc * 64 + (b - 128) < 57344)) (ts : List UriTok) :
    decodeAux (some (1, acc, lo)) (UriTok.byte b :: ts) =
      (decodeAux none ts).map (Char.ofNat (acc * 64 + (b - 128)) :: ·) := by
  rw [decodeAux]
  rw [if_pos hb, if_pos (by omega), if_pos hok]

theorem decodeAux_tokOf (c : Char) (ts : List UriTok) :
    decodeAux none (tokOf c ++ ts) = (decodeAux none ts).map (c :: ·) := by
  have hv := char_isValid c
  by_cases hu : uriUnreserved c
  · simp only [tokOf, if_pos hu, List.cons_append, List.nil_append]
    rw [decodeAux_raw]
  · simp only [tokOf, if_neg hu, utf8Bytes]
    by_cases h1 : c.toNat < 128
    · simp only [if_pos h1, List.map_cons, List.map_nil, List.cons_append, List.nil_append]
      rw [decodeAux_byte1 c.toNat h1, Char.ofNat_toNat]
    · by_cases h2 : c.toNat < 2048
      · simp only [if_neg h1, if_pos h2, List.map_cons, List.map_nil, List.cons_append,
          List.nil_append]
        rw [decodeAux_lead2 _ (by omega), decodeAux_fin _ _ _ (by omega) (by omega)]
        have ecp : (192 + c.toNat / 64 - 192) * 64 + (128 + c.toNat % 64 - 128) = c.toNat := by
          omega
        rw [ecp, Char.ofNat_toNat]
      · by_cases h3 : c.toNat < 65536
        · simp only [if_neg h1, if_neg h2, if_pos h3, List.map_cons, List.map_nil,
            List.cons_append, List.nil_append]
          have ecp : ((224 + c.toNat / 4096 - 224) * 64 + (128 + c.toNat / 64 % 64 - 128)) * 64 +
              (128 + c.toNat % 64 - 128) = c.toNat := by omega
          rw [decodeAux_lead3 _ (by omega), decodeAux_cont _ _ _ _ (by omega) (by omega),
            decodeAux_fin _ _ _ (by omega) (by rw [ecp]; omega)]
          rw [ecp, Char.ofNat_toNat]
        · simp only [if_neg h1, if_neg h2, if_neg h3, List.map_cons, List.map_nil,
            List.cons_append, List.nil_append]
          have ecp : (((240 + c.toNat / 262144 - 240) * 64 +
              (128 + c.toNat / 4096 % 64 - 128)) * 64 +
              (128 + c.toNat / 64 % 64 - 128)) * 64 + (128 + c.toNat % 64 - 128) = c.toNat := by
            omega
          rw [decodeAux_lead4 _ (by omega), decodeAux_cont _ _ _ _ (by omega) (by omega),
            decodeAux_cont _ _ _ _ (by omega) (by omega),
            decodeAux_fin _ _ _ (by omega) (by rw [ecp]; omega)]
          rw [ecp, Char.ofNat_toNat]

theorem decodeAux_flatten (l : List Char) :
    decodeAux none ((l.map tokOf).flatten) = some l := by
  induction l with
  | nil => rfl
  | cons c cs ih =>
    simp only [List.map_cons, List.flatten_cons]
    rw [decodeAux_tokOf c, ih]
    rfl

/-- Round trip of the percent codec: decoding an encoded string recovers it
exactly (decoding never throws on encoder output). -/
theorem decode_encode (l : List Char) :
    decodeURIComponentL (encodeURIComponentL l) = some l := by
  rw [decodeURIComponentL, uriToks_enc]
  exact decodeAux_flatten l

/-! ### Lemmas: string helpers -/

theorem charSplit_ne (sep : Char) (l : List Char) (h : sep ∉ l) : charSplit sep l = [l] := by
  induction l with
  | nil => rfl
  | cons c rest ih =>
    have hc : ¬ c = sep := fun hc => h (hc ▸ List.mem_cons_self c rest)
    have hr : sep ∉ rest := fun hr => h (List.mem_cons_of_mem c hr)
    rw [charSplit]
    rw [if_neg hc, ih hr]

theorem charSplit_once (sep : Char) (a b : List Char) (ha : sep ∉ a) :
    charSplit sep (a ++ sep :: b) = a :: charSplit sep b := by
  induction a with
  | nil =>
    rw [List.nil_append, charSplit]
    rw [if_pos rfl]
  | cons c rest ih =>
    have hc : ¬ c = sep := fun hc => ha (hc ▸ List.mem_cons_self c rest)
    have hr : sep ∉ rest := fun hr => ha (List.mem_cons_of_mem c hr)
    rw [List.cons_append, charSplit]
    rw [if_neg hc, ih hr]

theorem trimL_id (l : List Char) (h : ∀ c ∈ l, jsWs c = false) : trimL l = l := by
  have h1 : l.dropWhile jsWs = l := by
    cases l with
    | nil => rfl
    | cons c rest => rw [List.dropWhile_cons_of_neg (by simp [h c (by simp)])]
  rw [trimL, h1]
  have h2 : l.reverse.dropWhile jsWs = l.reverse := by
    cases hr : l.reverse with
    | nil => rfl
    | cons c rest =>
      have hc : c ∈ l := by
        rw [← List.mem_reverse, hr]
        exact List.mem_cons_self c rest
      rw [List.dropWhile_cons_of_neg (by simp [h c hc])]
  rw [h2, List.reverse_reverse]

theorem hexDigitU_mem (n : Nat) : hexDigitU n ∈ hexDigits := by
  by_cases h : n < 16
  · interval_cases n <;> decide
  · rw [hexDigitU, List.getD_eq_default]
    · decide
    · have hlen : hexDigits.length = 16 := rfl
      omega

theorem enc_char_range (l : List Char) : ∀ ch ∈ encodeURIComponentL l,
    uriUnreserved ch = true ∨ ch = '%' ∨ ch ∈ hexDigits := by
  induction l with
  | nil => simp [encodeURIComponentL]
  | cons c cs ih =>
    intro ch hch
    rw [encodeURIComponentL] at hch
    rcases List.mem_append.mp hch with h | h
    · rw [encChar] at h
      by_cases hu : uriUnreserved c
      · rw [if_pos hu] at h
        simp at h
        subst h
        exact Or.inl hu
      · rw [if_neg hu] at h
        rcases List.mem_flatten.mp h with ⟨g, hg, hcg⟩
        rcases List.mem_map.mp hg with ⟨b, _, hb⟩
        subst hb
        simp only [pctByte, List.mem_cons, List.not_mem_nil, or_false] at hcg
        rcases hcg with h1 | h1 | h1
        · exact Or.inr (Or.inl h1)
        · rw [h1]
          exact Or.inr (Or.inr (hexDigitU_mem _))
        · rw [h1]
          exact Or.inr (Or.inr (hexDigitU_mem _))
    · exact ih ch h

theorem enc_char_plain (l : List Char) : ∀ ch ∈ encodeURIComponentL l,
    jsWs ch = false ∧ ch ≠ ';' ∧ ch ≠ '=' := by
  intro ch hch
  rcases enc_char_range l ch hch with h | h | h
  · refine ⟨?_, ?_, ?_⟩
    · simp only [uriUnreserved, Bool.or_eq_true, decide_eq_true_eq] at h
      simp only [jsWs, Bool.or_eq_false_iff, decide_eq_false_iff_not]
      omega
    · intro hc
      subst hc
      exact absurd h (by decide)
    · intro hc
      subst hc
      exact absurd h (by decide)
  · subst h
    exact ⟨by decide, by decide, by decide⟩
  · fin_cases h <;> exact ⟨by decide, by decide, by decide⟩

/-! ### Lemmas: path matcher -/

theorem matchLoop_rEmpty (rs ps : List (List Char)) (params : List (String × String)) :
    matchLoop ([] :: rs) ps params = .noMatch := by
  cases ps with
  | nil =>
    rw [matchLoop.eq_2]
    rw [if_pos rfl]
  | cons p ps1 =>
    rw [matchLoop.eq_3]
    rw [if_pos rfl]

theorem matchLoop_wildEnd (ps : List (List Char)) (params : List (String × String)) :
    matchLoop [['*']] ps params = .ok (objSet params "*" (String.mk (joinChar '/' ps))) := by
  cases ps with
  | nil =>
    rw [matchLoop.eq_2]
    rw [if_neg (by decide), if_pos ⟨rfl, rfl⟩]
  | cons p ps1 =>
    rw [matchLoop.eq_3]
    rw [if_neg (by decide), if_pos ⟨rfl, rfl⟩]

theorem matchLoop_psNil (r : List Char) (rs : List (List Char)) (params : List (String × String))
    (hr : r ≠ []) (hnw : ¬ (r = ['*'] ∧ rs = [])) :
    matchLoop (r :: rs) [] params = .noMatch := by
  rw [matchLoop.eq_2]
  rw [if_neg hr, if_neg hnw]

theorem matchLoop_pEmpty (r : List Char) (rs ps1 : List (List Char))
    (params : List (String × String)) (hr : r ≠ []) (hnw : ¬ (r = ['*'] ∧ rs = [])) :
    matchLoop (r :: rs) ([] :: ps1) params = .noMatch := by
  rw [matchLoop.eq_3]
  rw [if_neg hr, if_neg hnw, if_pos rfl]

theorem matchLoop_named (name p : List Char) (rs ps1 : List (List Char))
    (params : List (String × String)) (hp : p ≠ []) :
    matchLoop ((':' :: name) :: rs) (p :: ps1) params =
      match decodeURIComponentL p with
      | some d => matchLoop rs ps1 (objSet params (String.mk name) (String.mk d))
      | none => .uriError := by
  rw [matchLoop.eq_3]
  rw [if_neg (by simp), if_neg (by simp), if_neg hp,
    if_pos (show (':' :: name).head? = some ':' from rfl)]
  rfl

theorem matchLoop_wildMid (p : List Char) (rs ps1 : List (List Char))
    (params : List (String × String)) (hrs : rs ≠ []) (hp : p ≠ []) :
    matchLoop (['*'] :: rs) (p :: ps1) params =
      match decodeURIComponentL p with
      | some d => matchLoop rs ps1 (objSet params "*" (String.mk d))
      | none => .uriError := by
  rw [matchLoop.eq_3]
  rw [if_neg (by decide), if_neg (by simp [hrs]), if_neg hp, if_neg (by decide), if_pos rfl]

theorem matchLoop_lit (r p : List Char) (rs ps1 : List (List Char))
    (params : List (String × String)) (hr : r ≠ []) (hc : r.head? ≠ some ':')
    (hw : r ≠ ['*']) (hp : p ≠ []) :
    matchLoop (r :: rs) (p :: ps1) params =
      if r = p then matchLoop rs ps1 params else .noMatch := by
  rw [matchLoop.eq_3]
  rw [if_neg hr, if_neg (by simp [hw]), if_neg hp, if_neg hc, if_neg hw]

theorem segsMatch_sound {rs ps : List (List Char)} {params out : List (String × String)}
    (h : SegsMatch rs ps params out) : matchLoop rs ps params = .ok out := by
  induction h with
  | nil params => rfl
  | wildEnd ps params => exact matchLoop_wildEnd ps params
  | named name p d rs ps params out hp hd h ih =>
    rw [matchLoop_named name p rs ps params hp, hd]
    exact ih
  | wildMid p d rs ps params out hrs hp hd h ih =>
    rw [matchLoop_wildMid p rs ps params hrs hp, hd]
    exact ih
  | lit r rs ps params out hr hc hw h ih =>
    rw [matchLoop_lit r r rs ps params hr hc hw hr]
    rw [if_pos rfl]
    exact ih

theorem lenOk_cons {rs ps : List (List Char)} (r p : List Char) (hr : rs = [] → r ≠ ['*'])
    (h : lenOk rs ps) : lenOk (r :: rs) (p :: ps) := by
  cases rs with
  | nil =>
    have hps : ps = [] := by
      rcases h with ⟨hw, _⟩ | ⟨_, hl⟩
      · simp at hw
      · simpa using hl.symm
    subst hps
    exact Or.inr ⟨by simp [hr rfl], rfl⟩
  | cons r2 rs2 =>
    rcases h with ⟨hw, hl⟩ | ⟨hw, hl⟩
    · refine Or.inl ⟨by rw [List.getLast?_cons_cons]; exact hw, ?_⟩
      simp only [List.length_cons]
      simp only [List.length_cons] at hl
      omega
    · refine Or.inr ⟨by rw [List.getLast?_cons_cons]; exact hw, ?_⟩
      simp [hl]

theorem lenOk_tail {rs ps1 : List (List Char)} (r p : List Char)
    (h : lenOk (r :: rs) (p :: ps1)) (hnw : ¬ (r = ['*'] ∧ rs = [])) : lenOk rs ps1 := by
  cases rs with
  | nil =>
    rcases h with ⟨hw, hl⟩ | ⟨hw, hl⟩
    · simp at hw
      exact absurd ⟨hw, rfl⟩ hnw
    · have hps : ps1 = [] := by
        simp only [List.length_cons, List.length_nil] at hl
        have h0 : ps1.length = 0 := by omega
        exact List.length_eq_zero.mp h0
      subst hps
      exact Or.inr ⟨by simp, rfl⟩
  | cons r2 rs2 =>
    rcases h with ⟨hw, hl⟩ | ⟨hw, hl⟩
    · refine Or.inl ⟨by rwa [List.getLast?_cons_cons] at hw, ?_⟩
      simp only [List.length_cons] at hl ⊢
      omega
    · refine Or.inr ⟨by rwa [List.getLast?_cons_cons] at hw, ?_⟩
      simp only [List.length_cons] at hl ⊢
      omega

theorem segsMatch_lenOk {rs ps : List (List Char)} {params out : List (String × String)}
    (h : SegsMatch rs ps params out) : lenOk rs ps := by
  induction h with
  | nil params => exact Or.inr ⟨by simp, rfl⟩
  | wildEnd ps params => exact Or.inl ⟨by simp, by simp⟩
  | named name p d rs ps params out hp hd h ih => exact lenOk_cons _ _ (fun _ => by simp) ih
  | wildMid p d rs ps params out hrs hp hd h ih =>
    exact lenOk_cons _ _ (fun h0 => absurd h0 hrs) ih
  | lit r rs ps params out hr hc hw h ih => exact lenOk_cons _ _ (fun _ => hw) ih

theorem matchLoop_complete (rs : List (List Char)) :
    ∀ (ps : List (List Char)) (params out : List (String × String)), lenOk rs ps →
      matchLoop rs ps params = .ok out → SegsMatch rs ps params out := by
  induction rs with
  | nil =>
    intro ps params out hlen hm
    have hps : ps = [] := by
      rcases hlen with ⟨hw, _⟩ | ⟨_, hl⟩
      · simp at hw
      · simpa using hl.symm
    subst hps
    have : params = out := SegOutcome.ok.inj hm
    subst this
    exact SegsMatch.nil params
  | cons r rs ih =>
    intro ps params out hlen hm
    by_cases hwend : r = ['*'] ∧ rs = []
    · obtain ⟨hw1, hw2⟩ := hwend
      subst hw1
      subst hw2
      rw [matchLoop_wildEnd] at hm
      have := SegOutcome.ok.inj hm
      subst this
      exact SegsMatch.wildEnd ps params
    · by_cases hr0 : r = []
      · subst hr0
        rw [matchLoop_rEmpty] at hm
        cases hm
      · cases ps with
        | nil =>
          rw [matchLoop_psNil r rs params hr0 hwend] at hm
          cases hm
        | cons p ps1 =>
          by_cases hp : p = []
          · subst hp
            rw [matchLoop_pEmpty r rs ps1 params hr0 hwend] at hm
            cases hm
          · have hlen2 : lenOk rs ps1 := lenOk_tail r p hlen hwend
            by_cases hcol : r.head? = some ':'
            · cases r with
              | nil => exact absurd rfl hr0
              | cons c name =>
                have hc : c = ':' := by
                  simpa using hcol
                subst hc
                rw [matchLoop_named name p rs ps1 params hp] at hm
                cases hdec : decodeURIComponentL p with
                | none =>
                  rw [hdec] at hm
                  cases hm
                | some d =>
                  rw [hdec] at hm
                  exact SegsMatch.named name p d rs ps1 params out hp hdec
                    (ih ps1 _ out hlen2 hm)
            · by_cases hstar : r = ['*']
              · subst hstar
                have hrs : rs ≠ [] := fun h0 => hwend ⟨rfl, h0⟩
                rw [matchLoop_wildMid p rs ps1 params hrs hp] at hm
                cases hdec : decodeURIComponentL p with
                | none =>
                  rw [hdec] at hm
                  cases hm
                | some d =>
                  rw [hdec] at hm
                  exact SegsMatch.wildMid p d rs ps1 params out hrs hp hdec
                    (ih ps1 _ out hlen2 hm)
              · rw [matchLoop_lit r p rs ps1 params hr0 hcol hstar hp] at hm
                by_cases heq : r = p
                · rw [if_pos heq] at hm
                  subst heq
                  exact SegsMatch.lit r rs ps1 params out hr0 hcol hstar
                    (ih ps1 params out hlen2 hm)
                · rw [if_neg heq] at hm
                  cases hm

theorem matchSegments_iff (rp pn : String) (out : List (String × String)) :
    matchSegments rp pn = .ok out ↔ SegsMatch (pathSegs rp) (pathSegs pn) [] out := by
  constructor
  · intro h
    simp only [matchSegments] at h
    by_cases hw : (pathSegs rp).getLast? = some ['*']
    · rw [if_pos hw] at h
      by_cases hlen : (pathSegs pn).length < (pathSegs rp).length - 1
      · rw [if_pos hlen] at h
        cases h
      · rw [if_neg hlen] at h
        exact matchLoop_complete _ _ _ _ (Or.inl ⟨hw, by omega⟩) h
    · rw [if_neg hw] at h
      by_cases hlen : (pathSegs rp).length ≠ (pathSegs pn).length
      · rw [if_pos hlen] at h
        cases h
      · rw [if_neg hlen] at h
        exact matchLoop_complete _ _ _ _ (Or.inr ⟨hw, by omega⟩) h
  · intro h
    have hs := segsMatch_sound h
    have hlen := segsMatch_lenOk h
    simp only [matchSegments]
    rcases hlen with ⟨hw, hl⟩ | ⟨hw, hl⟩
    · rw [if_pos hw, if_neg (by omega)]
      exact hs
    · rw [if_neg hw, if_neg (by omega)]
      exact hs

theorem matchRoutesFind (routes : List Route) (method pathname : String)
    (h : ∀ r ∈ routes, ¬ (r.method = method ∧ matchSegments r.path pathname = .uriError)) :
    matchRoutes routes method pathname =
      .ok (routes.findSome? (tryRoute method pathname)) := by
  induction routes with
  | nil => rfl
  | cons r rs ih =>
    have hr := h r (List.mem_cons_self r rs)
    have hrs := fun x hx => h x (List.mem_cons_of_mem r hx)
    rw [matchRoutes, List.findSome?_cons]
    by_cases hm : r.method = method
    · rw [if_neg (by simpa using hm)]
      cases hseg : matchSegments r.path pathname with
      | ok params =>
        have ht : tryRoute method pathname r = some (r, params) := by
          simp [tryRoute, hm, hseg]
        rw [ht]
      | noMatch =>
        have ht : tryRoute method pathname r = none := by
          simp [tryRoute, hm, hseg]
        rw [ht]
        exact ih hrs
      | uriError => exact absurd ⟨hm, hseg⟩ hr
    · rw [if_pos hm]
      have ht : tryRoute method pathname r = none := by
        simp [tryRoute, hm]
      rw [ht]
      exact ih hrs

/-! ### Lemmas: cookie parsing and serialization -/

theorem charSplit_ne_nil (sep : Char) (l : List Char) : charSplit sep l ≠ [] := by
  cases l with
  | nil => simp [charSplit]
  | cons c rest =>
    rw [charSplit]
    by_cases hc : c = sep
    · rw [if_pos hc]
      simp
    · rw [if_neg hc]
      cases h : charSplit sep rest <;> simp

theorem charSplit_headD (sep : Char) (l : List Char) :
    (charSplit sep l).getD 0 [] = l.takeWhile (fun c => c ≠ sep) := by
  induction l with
  | nil => rfl
  | cons c rest ih =>
    rw [charSplit, List.takeWhile_cons]
    by_cases hc : c = sep
    · rw [if_pos hc]
      subst hc
      simp
    · rw [if_neg hc]
      cases h : charSplit sep rest with
      | nil => exact absurd h (charSplit_ne_nil sep rest)
      | cons g gs =>
        have ihg : g = rest.takeWhile (fun c => c ≠ sep) := by
          rw [← ih, h]
          rfl
        simp [hc, ihg]

theorem charSplit_getD_one (sep : Char) (l : List Char) :
    (charSplit sep l).getD 1 [] =
      ((l.dropWhile (fun c => c ≠ sep)).drop 1).takeWhile (fun c => c ≠ sep) := by
  induction l with
  | nil => rfl
  | cons c rest ih =>
    rw [charSplit, List.dropWhile_cons]
    by_cases hc : c = sep
    · rw [if_pos hc]
      show (charSplit sep rest).getD 0 [] = _
      rw [charSplit_headD, if_neg (by simp [hc])]
      rfl
    · rw [if_neg hc]
      cases h : charSplit sep rest with
      | nil => exact absurd h (charSplit_ne_nil sep rest)
      | cons g gs =>
        have ih2 : gs.getD 0 [] =
            ((rest.dropWhile (fun c => c ≠ sep)).drop 1).takeWhile (fun c => c ≠ sep) := by
          rw [← ih, h]
          rfl
        show gs.getD 0 [] = _
        rw [ih2]
        simp [hc]

theorem parseCookiePair_eq (acc : List (String × String)) (pr : List Char) :
    parseCookiePair acc pr =
      match cookiePairSpec pr with
      | some (n, v) =>
        match decodeURIComponentL n, decodeURIComponentL v with
        | some n2, some v2 => some (objSet acc (String.mk n2) (String.mk v2))
        | _, _ => none
      | none => some acc := by
  simp only [parseCookiePair, cookiePairSpec]
  rw [charSplit_headD, charSplit_getD_one]
  by_cases hcond : (trimL pr).takeWhile (fun c => c ≠ '=') ≠ [] ∧
      (((trimL pr).dropWhile (fun c => c ≠ '=')).drop 1).takeWhile (fun c => c ≠ '=') ≠ []
  · rw [if_pos hcond, if_pos hcond]
  · rw [if_neg hcond, if_neg hcond]

theorem parseCookiesAux_eq (l : List (List Char)) :
    ∀ acc, parseCookiesAux acc l = parseCookiesSpecAux acc l := by
  induction l with
  | nil =>
    intro acc
    rfl
  | cons pr rest ih =>
    intro acc
    rw [parseCookiesAux, parseCookiesSpecAux, parseCookiePair_eq]
    cases hspec : cookiePairSpec pr with
    | none => exact ih acc
    | some nv =>
      obtain ⟨n, v⟩ := nv
      dsimp only
      cases hdn : decodeURIComponentL n with
      | none => rfl
      | some n2 =>
        cases hdv : decodeURIComponentL v with
        | none => rfl
        | some v2 => exact ih _

theorem str_toList_ne_nil (s : String) (h : s ≠ "") : s.toList ≠ [] := by
  intro h0
  apply h
  cases s with
  | mk data =>
    cases data with
    | nil => rfl
    | cons c cs => cases h0

theorem encChar_ne_nil (c : Char) : encChar c ≠ [] := by
  rw [encChar]
  by_cases hu : uriUnreserved c
  · rw [if_pos hu]
    simp
  · rw [if_neg hu]
    rw [utf8Bytes]
    by_cases h1 : c.toNat < 128
    · rw [if_pos h1]
      simp [pctByte]
    · rw [if_neg h1]
      by_cases h2 : c.toNat < 2048
      · rw [if_pos h2]
        simp [pctByte]
      · rw [if_neg h2]
        by_cases h3 : c.toNat < 65536
        · rw [if_pos h3]
          simp [pctByte]
        · rw [if_neg h3]
          simp [pctByte]

theorem enc_ne_nil (l : List Char) (h : l ≠ []) : encodeURIComponentL l ≠ [] := by
  cases l with
  | nil => exact absurd rfl h
  | cons c cs =>
    rw [encodeURIComponentL]
    intro h0
    exact encChar_ne_nil c (List.append_eq_nil.mp h0).1

theorem mk_toList (s : String) : String.mk s.toList = s := by
  cases s
  rfl

theorem string_append_toList (a b : String) : (a ++ b).toList = a.toList ++ b.toList :=
  String.data_append a b

theorem cookieNameValue_toList (c : Cookie) :
    (cookieNameValue c).toList =
      encodeURIComponentL c.name.toList ++ '=' :: encodeURIComponentL c.value.toList := by
  rw [cookieNameValue, string_append_toList, string_append_toList]
  show encodeURIComponentL c.name.toList ++ ['='] ++ encodeURIComponentL c.value.toList = _
  rw [List.append_assoc]
  rfl

theorem cookie_roundtrip (c : Cookie) (hn : c.name ≠ "") (hv : c.value ≠ "") :
    parseCookies (some (cookieNameValue c)) = some [(c.name, c.value)] := by
  have hl := cookieNameValue_toList c
  have hplainN := enc_char_plain c.name.toList
  have hplainV := enc_char_plain c.value.toList
  have hs : cookieNameValue c ≠ "" := by
    intro h0
    have : (cookieNameValue c).toList = [] := by
      rw [h0]
      rfl
    rw [hl] at this
    simp at this
  rw [parseCookies]
  rw [if_neg hs, hl]
  have hsemi : ';' ∉ encodeURIComponentL c.name.toList ++ '=' ::
      encodeURIComponentL c.value.toList := by
    intro hm
    rcases List.mem_append.mp hm with hm1 | hm1
    · exact (hplainN ';' hm1).2.1 rfl
    · rcases List.mem_cons.mp hm1 with hm2 | hm2
      · cases hm2
      · exact (hplainV ';' hm2).2.1 rfl
  rw [charSplit_ne ';' _ hsemi]
  rw [parseCookiesAux]
  have htrim : trimL (encodeURIComponentL c.name.toList ++ '=' ::
      encodeURIComponentL c.value.toList) =
      encodeURIComponentL c.name.toList ++ '=' :: encodeURIComponentL c.value.toList := by
    apply trimL_id
    intro ch hch
    rcases List.mem_append.mp hch with hm1 | hm1
    · exact (hplainN ch hm1).1
    · rcases List.mem_cons.mp hm1 with hm2 | hm2
      · subst hm2
        rfl
      · exact (hplainV ch hm2).1
  simp only [parseCookiePair, htrim]
  have heqN : '=' ∉ encodeURIComponentL c.name.toList := by
    intro hm
    exact (hplainN '=' hm).2.2 rfl
  have heqV : '=' ∉ encodeURIComponentL c.value.toList := by
    intro hm
    exact (hplainV '=' hm).2.2 rfl
  rw [charSplit_once '=' _ _ heqN, charSplit_ne '=' _ heqV]
  have hnn : encodeURIComponentL c.name.toList ≠ [] :=
    enc_ne_nil _ (str_toList_ne_nil c.name hn)
  have hvn : encodeURIComponentL c.value.toList ≠ [] :=
    enc_ne_nil _ (str_toList_ne_nil c.value hv)
  simp only [List.getD_cons_zero, List.getD_cons_succ]
  rw [if_pos (And.intro hnn hvn)]
  rw [decode_encode, decode_encode]
  dsimp only
  rw [mk_toList, mk_toList]
  rfl

/-! ### Claim theorems -/

/-- C1 (code bug): a Response thrown during an onRequest hook does skip the
handler and all remaining hooks of that phase (the event log stops at the
throwing hook), but the dispatcher does not return it verbatim: the catch
block of handleRequest never tests the thrown value for being a Response, so
with no onError hooks the thrown 204 preflight is replaced by the default 500
Internal Server Error response. -/
theorem c1_thrown_response_swallowed :
    handleRequestCore throwingEngine {} okHandler {} "/x" =
      ([Ev.evOnRequest 0], .ok internalErrorResp) ∧
    internalErrorResp ≠ corsPreflight ∧
    internalErrorResp.status = 500 ∧ corsPreflight.status = 204 :=
  ⟨rfl, by decide, rfl, rfl⟩

/-- C2: when validation of any declared request part fails, the dispatcher
returns a terminal 400 whose JSON body carries the aggregate error message and
the structured details list, and neither the handler nor any
onRequest/onResponse/onError hook runs (the event log is empty), for every
engine, handler and hook configuration. -/
theorem c2_validation_failure_terminal_400 (e : Engine) (cfg : RouteConfig)
    (handler : HandlerH) (raw : ReqParts) (path : String) (issues : List VIssue)
    (h : validateParts cfg raw = .error issues) :
    handleRequestCore e cfg handler raw path =
      ([], .ok
        { status := 400, headers := [("Content-Type", "application/json")],
          body := some (stringifyV (.jobj
            [("error", .jstr (vIssuesMsg "Validation failed" issues)),
              ("details", .jarr (issues.map issueToJVal))])) }) := by
  simp only [handleRequestCore, h, validationErrorResp, vFailBody, stringifyTop]

/-- Witness for C2 at a concrete failing body schema. -/
theorem c2_validation_failure_terminal_400_witness :
    handleRequestCore {} { body := some vReject } okHandler {} "/u" =
      ([], .ok
        { status := 400, headers := [("Content-Type", "application/json")],
          body := some (stringifyV (.jobj
            [("error", .jstr (vIssuesMsg "Validation failed"
                [{ path := ["name"], message := "Required" }])),
              ("details", .jarr ([{ path := ["name"], message := "Required" }].map
                issueToJVal))])) }) :=
  c2_validation_failure_terminal_400 {} { body := some vReject } okHandler {} "/u"
    [{ path := ["name"], message := "Required" }] rfl

/-- C4: response validation with a status-keyed mapping resolves the schema at
the current set.status (200 when never set), falls back through 200, 201, 400,
500 to the first schema present, and passes the value through unchanged when
none is present; end to end, the dispatcher selects the schema by the status
the handler left in set.status. -/
theorem c4_status_keyed_response_validation :
    (∀ (m : List (Nat × Validator)) (data : JVal) (status : Nat),
      validateResponse (.byStatus m) data status =
        match resolveStatusSchema m status with
        | some v => v data
        | none => .ok data) ∧
    handleRequestCore {} { response := some (.byStatus [(200, vReject), (400, vAccept)]) }
        (handlerSet 400 (.jobj [("msg", .jstr "m")])) {} "/p" =
      ([Ev.evHandler], .ok
        { status := 400, headers := [("Content-Type", "application/json")],
          body := some (stringifyV (.jobj [("msg", .jstr "m")])) }) ∧
    handleRequestCore {} { response := some (.byStatus [(200, vConst "validated")]) }
        (handlerPure (.jobj [])) {} "/p" =
      ([Ev.evHandler], .ok { status := 200, headers := [], body := some "validated" }) ∧
    handleRequestCore {} { response := some (.byStatus [(201, vConst "fb")]) }
        (handlerSet 404 (.jobj [])) {} "/p" =
      ([Ev.evHandler], .ok { status := 404, headers := [], body := some "fb" }) ∧
    handleRequestCore {} { response := some (.byStatus []) }
        (handlerSet 418 (.jnum 5)) {} "/p" =
      ([Ev.evHandler], .ok
        { status := 418, headers := [("Content-Type", "application/json")],
          body := some "5" }) := by
  refine ⟨?_, rfl, rfl, rfl, rfl⟩
  intro m data status
  rw [validateResponse, resolveStatusSchema]
  cases h : List.lookup status m with
  | some v => rfl
  | none =>
    cases hf : fallbackSchema m fallbackStatuses with
    | some v => rfl
    | none => rfl

/-- C6: the onResponse phase is the ordered fold of the hooks present (own hook
first, then plugins in use() order) over the running response value, where a
hook's truthy return replaces the value and a falsy return keeps it; end to
end, three marker hooks compose in [parent, plugin1, plugin2] order after the
handler, and an observing hook leaves the value unchanged. -/
theorem c6_onresponse_hook_pipeline :
    (∀ (hsets : List HookSet) (i : Nat) (ctx : Ctx) (v : JVal),
      (runRespHooksAux i hsets ctx v).2 =
        (presentRespHooks hsets).foldlM respHookStep (ctx, v)) ∧
    (∀ (s : Ctx × JVal) (f : OnResponseH) (ctx2 : Ctx) (r : JVal),
      f s.1 s.2 = .ok (ctx2, r) → truthy r = false → respHookStep s f = .ok (ctx2, s.2)) ∧
    handleRequestCore markerEngine {} (handlerPure (.jstr "h")) {} "/m" =
      ([Ev.evHandler, Ev.evOnResponse 0, Ev.evOnResponse 1, Ev.evOnResponse 2],
        .ok { status := 200, headers := [], body := some "hP12" }) ∧
    handleRequestCore markerEngine2 {} (handlerPure (.jstr "h")) {} "/m" =
      ([Ev.evHandler, Ev.evOnResponse 0, Ev.evOnResponse 1, Ev.evOnResponse 2],
        .ok { status := 200, headers := [], body := some "hP1" }) := by
  refine ⟨?_, ?_, rfl, rfl⟩
  · intro hsets
    induction hsets with
    | nil =>
      intro i ctx v
      rfl
    | cons hs rest ih =>
      intro i ctx v
      rw [runRespHooksAux]
      rw [presentRespHooks, List.filterMap_cons]
      cases hon : hs.onResponse with
      | none => exact ih (i + 1) ctx v
      | some f =>
        dsimp only
        cases hf : f ctx v with
        | ok pr =>
          obtain ⟨ctx2, r⟩ := pr
          have hstep : respHookStep (ctx, v) f = .ok (ctx2, if truthy r then r else v) := by
            simp only [respHookStep, hf]
          rw [List.foldlM_cons, hstep]
          dsimp only
          exact ih (i + 1) ctx2 (if truthy r then r else v)
        | error exc =>
          have hstep : respHookStep (ctx, v) f = .error exc := by
            simp only [respHookStep, hf]
          rw [List.foldlM_cons, hstep]
          rfl
  · intro s f ctx2 r hf hr
    simp [respHookStep, hf, hr]

/-- C7: composition flattens exactly one level and is lazy: use() only appends
the child reference, getAllRoutes is the instance's own routes plus each direct
child's own routes (a child's own plugins are never traversed, witnessed both
abstractly and on a concrete grandchild heap), and a route added to a child
after embedding is visible to the parent's next dispatch. -/
theorem c7_one_level_lazy_composition :
    (∀ (st : Store) (p c : Nat),
      ((useChild st p c) p).plugins = (st p).plugins ++ [c] ∧
      ((useChild st p c) p).routes = (st p).routes ∧
      ∀ j, j ≠ p → useChild st p c j = st j) ∧
    (∀ (st : Store) (id : Nat),
      getAllRoutes st id =
        (st id).routes ++ ((st id).plugins.map (fun q => (st q).routes)).flatten) ∧
    (∀ (st st2 : Store) (id : Nat), (st2 id).routes = (st id).routes →
      (st2 id).plugins = (st id).plugins →
      (∀ q ∈ (st id).plugins, (st2 q).routes = (st q).routes) →
      getAllRoutes st2 id = getAllRoutes st id) ∧
    (∀ (st : Store) (p c : Nat) (r : Route), c ∈ (st p).plugins →
      r ∈ getAllRoutes (addRoute st c r) p) ∧
    getAllRoutes demoStore 0 = [{ method := "GET", path := "/p", tag := 0 },
      { method := "GET", path := "/q", tag := 1 }] := by
  refine ⟨?_, ?_, ?_, ?_, by decide⟩
  · intro st p c
    refine ⟨?_, ?_, ?_⟩
    · show (if p = p then { st p with plugins := (st p).plugins ++ [c] } else st p).plugins = _
      rw [if_pos rfl]
    · show (if p = p then { st p with plugins := (st p).plugins ++ [c] } else st p).routes = _
      rw [if_pos rfl]
    · intro j hj
      show (if j = p then { st p with plugins := (st p).plugins ++ [c] } else st j) = st j
      rw [if_neg hj]
  · intro st id
    rfl
  · intro st st2 id hr hp hq
    rw [getAllRoutes, getAllRoutes, hr, hp]
    have : (st id).plugins.map (fun q => (st2 q).routes) =
        (st id).plugins.map (fun q => (st q).routes) :=
      List.map_congr_left hq
    rw [this]
  · intro st p c r hc
    by_cases hcp : c = p
    · subst hcp
      rw [getAllRoutes]
      apply List.mem_append_left
      show r ∈ (if c = c then { st c with routes := (st c).routes ++ [r] } else st c).routes
      rw [if_pos rfl]
      exact List.mem_append_right _ (List.mem_singleton.mpr rfl)
    · rw [getAllRoutes]
      apply List.mem_append_right
      apply List.mem_flatten.mpr
      refine ⟨((addRoute st c r) c).routes, ?_, ?_⟩
      · apply List.mem_map.mpr
        refine ⟨c, ?_, rfl⟩
        show c ∈ ((if p = c then { st c with routes := (st c).routes ++ [r] } else st p)).plugins
        rw [if_neg (fun h => hcp h.symm)]
        exact hc
      · show r ∈ (if c = c then { st c with routes := (st c).routes ++ [r] } else st c).routes
        rw [if_pos rfl]
        exact List.mem_append_right _ (List.mem_singleton.mpr rfl)

/-- Witness for C7 on the concrete grandchild heap: adding a route to the
embedded child after composition is visible from the parent. -/
theorem c7_one_level_lazy_composition_witness :
    { method := "GET", path := "/new", tag := 9 } ∈
      getAllRoutes (addRoute demoStore 1 { method := "GET", path := "/new", tag := 9 }) 0 :=
  c7_one_level_lazy_composition.2.2.2.1 demoStore 0 1
    { method := "GET", path := "/new", tag := 9 } (by decide)

/-- C10: attribute emission when serializing set.cookies is truthiness-gated: a
cookie renders identically to the same cookie with maxAge 0, secure false,
httpOnly false, and empty-string domain/path dropped; in particular the
delete-cookie idiom Max-Age=0 is silently omitted, and a single set cookie
lands under the Set-Cookie response header. -/
theorem c10_falsy_cookie_attrs :
    (∀ c : Cookie, renderCookie c = renderCookie (dropFalsyAttrs c)) ∧
    renderCookie
      { name := "session", value := "x", domain := some "", path := some "",
        maxAge := some 0, secure := some false, httpOnly := some false } = "session=x" ∧
    (∀ (hs : List (String × String)) (c : Cookie),
      addSetCookieHeaders hs [c] = objSet hs "Set-Cookie" (renderCookie c)) := by
  refine ⟨?_, by decide, fun hs c => rfl⟩
  intro c
  rcases c with ⟨n, v, d, p, ex, ma, se, ho, ss⟩
  simp only [renderCookie, dropFalsyAttrs, cookieNameValue]
  have hd : (if optStrTruthy (if d = some "" then none else d) then
        "; Domain=" ++ (if d = some "" then none else d).getD "" else "") =
      (if optStrTruthy d then "; Domain=" ++ d.getD "" else "") := by
    rcases d with _ | s
    · rfl
    · by_cases h0 : s = ""
      · subst h0
        rfl
      · have hin : (if some s = some "" then none else some s) = some s :=
          if_neg (by simpa using h0)
        rw [hin]
  have hp2 : (if optStrTruthy (if p = some "" then none else p) then
        "; Path=" ++ (if p = some "" then none else p).getD "" else "") =
      (if optStrTruthy p then "; Path=" ++ p.getD "" else "") := by
    rcases p with _ | s
    · rfl
    · by_cases h0 : s = ""
      · subst h0
        rfl
      · have hin : (if some s = some "" then none else some s) = some s :=
          if_neg (by simpa using h0)
        rw [hin]
  have hma : (if optNumTruthy (if ma = some 0 then none else ma) then
        "; Max-Age=" ++ toString ((if ma = some 0 then none else ma).getD 0) else "") =
      (if optNumTruthy ma then "; Max-Age=" ++ toString (ma.getD 0) else "") := by
    rcases ma with _ | n2
    · rfl
    · by_cases h0 : n2 = 0
      · subst h0
        rfl
      · have hin : (if some n2 = some 0 then none else some n2) = some n2 :=
          if_neg (by simpa using h0)
        rw [hin]
  have hse : (if (if se = some false then none else se).getD false then "; Secure" else "") =
      (if se.getD false then "; Secure" else "") := by
    rcases se with _ | b
    · rfl
    · cases b
      · rfl
      · have hin : (if some true = some false then none else some true) = some true :=
          if_neg (by decide)
        rw [hin]
  have hho : (if (if ho = some false then none else ho).getD false then "; HttpOnly" else "") =
      (if ho.getD false then "; HttpOnly" else "") := by
    rcases ho with _ | b
    · rfl
    · cases b
      · rfl
      · have hin : (if some true = some false then none else some true) = some true :=
          if_neg (by decide)
        rw [hin]
  rw [hd, hp2, hma, hse, hho]

/-- Witness for C6: the observing hook (falsy return) leaves the running
response value unchanged. -/
theorem c6_onresponse_hook_pipeline_witness :
    respHookStep (demoCtx, .jstr "h") observeOnly = .ok (demoCtx, .jstr "h") :=
  c6_onresponse_hook_pipeline.2.1 (demoCtx, .jstr "h") observeOnly demoCtx .jnull rfl rfl

/-- C3: the matcher returns the first route, in registration order over the
flattened table of getAllRoutes (own routes before plugin routes, plugins in
use() order), whose method equals the request method and whose pattern matches
the pathname; concretely, /a/:x registered before /a/b wins for /a/b with x
bound to b. -/
theorem c3_first_matching_route_wins :
    (∀ (st : Store) (id : Nat) (method pathname : String),
      (∀ r ∈ getAllRoutes st id,
        ¬ (r.method = method ∧ matchSegments r.path pathname = .uriError)) →
      matchRoute st id method pathname =
        .ok ((getAllRoutes st id).findSome? (tryRoute method pathname))) ∧
    matchRoutes [{ method := "GET", path := "/a/:x", tag := 0 },
        { method := "GET", path := "/a/b", tag := 1 }] "GET" "/a/b" =
      .ok (some ({ method := "GET", path := "/a/:x", tag := 0 }, [("x", "b")])) := by
  refine ⟨?_, rfl⟩
  intro st id method pathname h
  exact matchRoutesFind _ _ _ h

/-- Witness for C3 on the concrete heap: dispatching on the parent finds the
plugin's route after its own routes fail to match. -/
theorem c3_first_matching_route_wins_witness :
    matchRoute demoStore 0 "GET" "/q" =
      .ok ((getAllRoutes demoStore 0).findSome? (tryRoute "GET" "/q")) :=
  c3_first_matching_route_wins.1 demoStore 0 "GET" "/q" (by decide)

/-- C5 counterexample: the matcher does not compare literal segments after
percent-decoding, and a trailing * binds the raw, undecoded remainder: the
pattern /ab does not match the pathname /a%62 although a%62 decodes to ab, and
/f/* against /f/a%20b/c binds * to a%20b/c, not to the decoded a b/c. -/
theorem c5_counterexample :
    matchSegments "/ab" "/a%62" = .noMatch ∧
    decodeURIComponentL ("a%62".toList) = some ("ab".toList) ∧
    matchSegments "/f/*" "/f/a%20b/c" = .ok [("*", "a%20b/c")] ∧
    ("a%20b/c" : String) ≠ "a b/c" ∧
    decodeURIComponentL ("a%20b/c".toList) = some ("a b/c".toList) := by
  refine ⟨by decide, by decide, by decide, by decide, by decide⟩

/-- C5 amended: the matcher compares a literal pattern segment with the raw
(undecoded) pathname segment, binds a :name segment to the percent-decoded
pathname segment, and binds a trailing * to the raw remainder joined by `/`
(the SegsMatch relation states exactly this, and matching succeeds exactly
when the relation holds); the spec example /users/:id with /users/42%20a still
binds id to the decoded "42 a". -/
theorem c5_amended :
    (∀ (rp pn : String) (out : List (String × String)),
      matchSegments rp pn = .ok out ↔ SegsMatch (pathSegs rp) (pathSegs pn) [] out) ∧
    matchSegments "/a%62" "/a%62" = .ok [] ∧
    matchSegments "/users/:id" "/users/42%20a" = .ok [("id", "42 a")] ∧
    matchSegments "/f/*" "/f/x/a%20b" = .ok [("*", "x/a%20b")] := by
  refine ⟨matchSegments_iff, by decide, by decide, by decide⟩

/-- Witness for C5 amended at the spec's own example. -/
theorem c5_amended_witness :
    SegsMatch (pathSegs "/users/:id") (pathSegs "/users/42%20a") [] [("id", "42 a")] :=
  (c5_amended.1 "/users/:id" "/users/42%20a" [("id", "42 a")]).mp (by decide)

/-- C8 counterexample: the cookie parser splits each pair on every `=`, not on
the first one only: for the header a=b=c it binds a to b, not to b=c as the
claim states. -/
theorem c8_counterexample :
    parseCookies (some "a=b=c") = some [("a", "b")] ∧
    (some [("a", "b")] : Option (List (String × String))) ≠ some [("a", "b=c")] :=
  ⟨by decide, by decide⟩

/-- C8 amended: the parser splits the header on `;`, trims each pair, takes the
piece before the first `=` as the name and the piece between the first and the
second `=` as the value (a value containing `=` is truncated at the next `=`),
skips pairs whose name or value comes out empty (missing values included), and
percent-decodes both; concretely, percent escapes decode and a pair without a
value is skipped. -/
theorem c8_amended :
    (∀ h : Option String, parseCookies h = parseCookiesSpec h) ∧
    parseCookies (some "n%20a=v%3D1; x; b=2") = some [("n a", "v=1"), ("b", "2")] := by
  refine ⟨?_, by decide⟩
  intro h
  cases h with
  | none => rfl
  | some s =>
    rw [parseCookies, parseCookiesSpec]
    by_cases hs : s = ""
    · rw [if_pos hs, if_pos hs]
    · rw [if_neg hs, if_neg hs]
      exact parseCookiesAux_eq _ _

/-- C9 counterexample: a cookie with an empty value renders as `name=`, which
the request-side parser skips (the empty value is falsy), so the original
name/value pair is not recovered. -/
theorem c9_counterexample :
    renderCookie { name := "a", value := "" } = "a=" ∧
    parseCookies (some (cookieNameValue { name := "a", value := "" })) = some [] ∧
    (some [] : Option (List (String × String))) ≠ some [("a", "")] :=
  ⟨by decide, by decide, by decide⟩

/-- C9 amended: for every cookie with nonempty name and nonempty value, the
serialized line starts with its name=value part, and re-parsing that part with
the request-side cookie parser yields exactly the original name and value. -/
theorem c9_amended :
    (∀ c : Cookie, c.name ≠ "" → c.value ≠ "" →
      parseCookies (some (cookieNameValue c)) = some [(c.name, c.value)]) ∧
    (∀ c : Cookie, ∃ rest, renderCookie c = cookieNameValue c ++ rest) := by
  constructor
  · exact fun c hn hv => cookie_roundtrip c hn hv
  · intro c
    refine ⟨(if optStrTruthy c.domain then "; Domain=" ++ c.domain.getD "" else "") ++
      ((if optStrTruthy c.path then "; Path=" ++ c.path.getD "" else "") ++
      ((if c.expires.isSome then "; Expires=" ++ c.expires.getD "" else "") ++
      ((if optNumTruthy c.maxAge then "; Max-Age=" ++ toString (c.maxAge.getD 0) else "") ++
      ((if c.secure.getD false then "; Secure" else "") ++
      ((if c.httpOnly.getD false then "; HttpOnly" else "") ++
      (if optStrTruthy c.sameSite then "; SameSite=" ++ c.sameSite.getD "" else "")))))), ?_⟩
    rw [renderCookie]
    simp only [String.append_assoc]

/-- Witness for C9 amended: a name and value needing UTF-8 percent-encoding
survive the round trip. -/
theorem c9_amended_witness :
    parseCookies (some (cookieNameValue { name := "séssion id", value := "a=b c" })) =
      some [("séssion id", "a=b c")] :=
  c9_amended.1 { name := "séssion id", value := "a=b c" } (by decide) (by decide)

end Bxo
